import Mathlib

/-!
Verification of the 13F filing comparison pipeline.

The development shallowly embeds the three core services:
* the comparison / aggregation engine (`compare_filings`, `calculate_summary`),
* the holdings XML parser (`parse_13f_xml` and its element extraction),
* the SEC client's filing selection (`get_latest_13f_filings`, `get_fund_filings`).

Machine floats of the source are modelled with exact rationals `ℚ`;
Python `int()` truncation toward zero is `pyInt`, and `round(x, 2)` is
`pyRound2` (rounding to the nearest hundredth; the tie-breaking mode of
binary floats is immaterial to every statement proved here).
Python dictionaries are modelled as insertion-ordered association lists.
-/

namespace ThirteenF

/-- One parsed security position, as produced by `parse_13f_xml`:
the dictionary `{issuer, titleOfClass, cusip, value, shares}`.
`value` is `none` when the filing declared no (or a non-numeric) value. -/
structure Holding where
  issuer : String
  titleOfClass : String
  cusip : String
  value : Option ℚ
  shares : ℚ
deriving DecidableEq

/-- A filing snapshot: a Python dict keyed by CUSIP, modelled as an
insertion-ordered association list. -/
abbrev Snapshot : Type := List (String × Holding)

/-- Python `d.get(k)`: the value of the first (and, for a dict, only)
entry with the given key. -/
def dictGet : Snapshot → String → Option Holding
  | [], _ => none
  | p :: t, k => if p.1 = k then some p.2 else dictGet t k

/-- The key sequence of a snapshot (`d.keys()`). -/
def keys (s : Snapshot) : List String := s.map (·.1)

/-- Well-formedness of a parsed snapshot, per the data model: keys are
unique, each entry's `cusip` field matches its key, identifiers are the
canonical 9-character codes, share counts are non-negative and declared
values are non-negative. -/
def WellFormed (s : Snapshot) : Prop :=
  (keys s).Nodup ∧
    ∀ p ∈ s, p.2.cusip = p.1 ∧ p.1.length = 9 ∧ 0 ≤ p.2.shares ∧
      ∀ q, p.2.value = some q → 0 ≤ q

instance (s : Snapshot) : Decidable (WellFormed s) := by
  unfold WellFormed
  infer_instance

/-- Python `x or 0` for an optional number (`None` and `0.0` give `0`). -/
def valOr0 : Option ℚ → ℚ
  | none => 0
  | some q => q

/-- Python truthiness of an optional number: `None`, `0` and `0.0` are
falsy, every other number is truthy. -/
def numTruthy : Option ℚ → Bool
  | none => false
  | some q => q != 0

/-- Python `int(x)`: truncation toward zero. -/
def pyInt (q : ℚ) : ℤ := if 0 ≤ q then ⌊q⌋ else ⌈q⌉

/-- Python `round(x, 2)`: rounding to the nearest hundredth. -/
def pyRound2 (q : ℚ) : ℚ := (round (q * 100) : ℤ) / 100

/-- `sum((pos.get('value') or 0) for pos in side.values())`. -/
def totalValue (s : Snapshot) : ℚ := (s.map (fun p => valOr0 p.2.value)).sum

/-- Lexicographic comparison of strings, decided on the underlying
character lists (the order Python's string `sorted` uses). -/
def strLeDec : DecidableRel (fun a b : String => a ≤ b) := fun a b =>
  decidable_of_iff (a.toList ≤ b.toList) String.le_iff_toList_le.symm

/-- `sorted(set(current.keys()) | set(prior.keys()))`: the union of the
two key sets in ascending lexicographic order. -/
def sortedUnion (current prior : Snapshot) : List String :=
  @List.insertionSort String (fun a b => a ≤ b) strLeDec
    ((keys current ++ keys prior).dedup)

/-- One output row of `compare_filings` (the TOTAL row uses `none` for
the share fields). -/
structure Row where
  cusip : String
  issuer : String
  titleOfClass : String
  prior_shares : Option ℤ
  current_shares : Option ℤ
  delta_shares : Option ℤ
  prior_value : Option ℤ
  current_value : Option ℤ
  percent_change : Option ℚ
  status : String
  prior_percent_of_portfolio : ℚ
  current_percent_of_portfolio : ℚ
  change_in_portfolio_pct : ℚ
deriving DecidableEq

/-- The share count used for a side: the holding's `shares` if the CUSIP
is present in that snapshot, else `0.0`. -/
def sharesAt (s : Snapshot) (k : String) : ℚ :=
  match dictGet s k with
  | some h => h.shares
  | none => 0

/-- The declared value used for a side: `(side.get(cusip) or {}).get("value")`. -/
def valueAt (s : Snapshot) (k : String) : Option ℚ :=
  (dictGet s k).bind (·.value)

/-- The loop body of `compare_filings`: the comparison row built for one
CUSIP of the sorted union, given the two snapshots and the two
precomputed portfolio totals. -/
def buildRow (current prior : Snapshot) (tcv tpv : ℚ) (k : String) : Row :=
  let cur := dictGet current k
  let prv := dictGet prior k
  let cur_shares : ℚ := match cur with | some h => h.shares | none => 0
  let prv_shares : ℚ := match prv with | some h => h.shares | none => 0
  let delta_shares := cur_shares - prv_shares
  let status :=
    if prv_shares = 0 ∧ 0 < cur_shares then "NEW"
    else if 0 < prv_shares ∧ cur_shares = 0 then "EXITED"
    else if 0 < delta_shares then "INCREASED"
    else if delta_shares < 0 then "DECREASED"
    else "UNCHANGED"
  let issuer := match cur with
    | some h => h.issuer
    | none => match prv with | some h => h.issuer | none => ""
  let title := match cur with
    | some h => h.titleOfClass
    | none => match prv with | some h => h.titleOfClass | none => ""
  let cur_val : Option ℚ := cur.bind (·.value)
  let prv_val : Option ℚ := prv.bind (·.value)
  let pct_change : Option ℚ :=
    if numTruthy prv_val ∧ 0 < valOr0 prv_val then
      if numTruthy cur_val then
        some ((valOr0 cur_val - valOr0 prv_val) / valOr0 prv_val * 100)
      else some (-100)
    else if numTruthy cur_val ∧ 0 < valOr0 cur_val then none
    else some 0
  let current_pct : ℚ :=
    if numTruthy cur_val ∧ tcv ≠ 0 then valOr0 cur_val / tcv * 100 else 0
  let prior_pct : ℚ :=
    if numTruthy prv_val ∧ tpv ≠ 0 then valOr0 prv_val / tpv * 100 else 0
  { cusip := k
    issuer := issuer
    titleOfClass := title
    prior_shares := some (pyInt prv_shares)
    current_shares := some (pyInt cur_shares)
    delta_shares := some (pyInt delta_shares)
    prior_value := if numTruthy prv_val then some (pyInt (valOr0 prv_val)) else none
    current_value := if numTruthy cur_val then some (pyInt (valOr0 cur_val)) else none
    percent_change := pct_change.map pyRound2
    status := status
    prior_percent_of_portfolio := pyRound2 prior_pct
    current_percent_of_portfolio := pyRound2 current_pct
    change_in_portfolio_pct := pyRound2 (current_pct - prior_pct) }

/-- The synthetic aggregate row appended after the per-CUSIP rows. -/
def totalRow (tcv tpv : ℚ) : Row :=
  { cusip := "TOTAL"
    issuer := "Total Assets Under Management"
    titleOfClass := ""
    prior_shares := none
    current_shares := none
    delta_shares := none
    prior_value := some (pyInt tpv)
    current_value := some (pyInt tcv)
    percent_change :=
      if tpv ≠ 0 then some (pyRound2 ((tcv - tpv) / tpv * 100)) else some 0
    status := "TOTAL"
    prior_percent_of_portfolio := 100
    current_percent_of_portfolio := 100
    change_in_portfolio_pct := 0 }

/-- `compare_filings(current, prior)`: one row per CUSIP of the sorted
union of the key sets, followed by the synthetic TOTAL row. -/
def compare_filings (current prior : Snapshot) : List Row :=
  let tcv := totalValue current
  let tpv := totalValue prior
  ((sortedUnion current prior).map (buildRow current prior tcv tpv)) ++
    [totalRow tcv tpv]

/-- The summary-statistics dictionary of `calculate_summary`. -/
structure Summary where
  total_positions : ℕ
  new_positions : ℕ
  exited_positions : ℕ
  increased_positions : ℕ
  decreased_positions : ℕ
  unchanged_positions : ℕ
  total_current_value : ℤ
deriving DecidableEq

/-- One iteration of the `calculate_summary` loop: bump the counter of
the row's status and, when the row's `current_value` is truthy, add it
to the running value total. -/
def summaryStep (s : Summary) (r : Row) : Summary :=
  let s :=
    if r.status = "NEW" then { s with new_positions := s.new_positions + 1 }
    else if r.status = "EXITED" then { s with exited_positions := s.exited_positions + 1 }
    else if r.status = "INCREASED" then { s with increased_positions := s.increased_positions + 1 }
    else if r.status = "DECREASED" then { s with decreased_positions := s.decreased_positions + 1 }
    else if r.status = "UNCHANGED" then { s with unchanged_positions := s.unchanged_positions + 1 }
    else s
  match r.current_value with
  | some v => if v ≠ 0 then { s with total_current_value := s.total_current_value + v } else s
  | none => s

/-- `calculate_summary(comparison)`: `total_positions` is the length of
the full row list; the remaining fields are accumulated over every row. -/
def calculate_summary (comparison : List Row) : Summary :=
  comparison.foldl summaryStep
    { total_positions := comparison.length
      new_positions := 0
      exited_positions := 0
      increased_positions := 0
      decreased_positions := 0
      unchanged_positions := 0
      total_current_value := 0 }

/-- The rows other than the synthetic TOTAL row. -/
def nonTotal (rows : List Row) : List Row :=
  rows.filter (fun r => r.cusip != "TOTAL")

/-- The integer `current_value` contribution of a row, treating `None`
as 0. -/
def cvInt (r : Row) : ℤ :=
  match r.current_value with
  | some v => v
  | none => 0

/-- The integer `prior_value` contribution of a row, treating `None`
as 0. -/
def pvInt (r : Row) : ℤ :=
  match r.prior_value with
  | some v => v
  | none => 0

/-- A snapshot whose declared values are all whole numbers (the
reporting format declares values in integral thousands). -/
def IntegralValues (s : Snapshot) : Prop :=
  ∀ p ∈ s, ∀ q, p.2.value = some q → ∃ n : ℤ, q = (n : ℚ)

/-- Modelled from the claim text: the status determined by the pair of
raw share counts — NEW iff prior = 0 and current > 0; EXITED iff
prior > 0 and current = 0; otherwise by the sign of the delta. -/
def specStatus (p c : ℚ) : String :=
  if p = 0 ∧ 0 < c then "NEW"
  else if 0 < p ∧ c = 0 then "EXITED"
  else if 0 < c - p then "INCREASED"
  else if c - p < 0 then "DECREASED"
  else "UNCHANGED"

/-- Modelled from the claim text: the percent change determined by the
two declared values — formula against a positive prior value (exactly
-100 on a missing current value), `None` from a zero or missing base
with a positive current value, and 0 otherwise. -/
def specPctChange (pv cv : Option ℚ) : Option ℚ :=
  match pv with
  | some p =>
    if 0 < p then
      match cv with
      | some c => some (pyRound2 ((c - p) / p * 100))
      | none => some (-100)
    else
      match cv with
      | some c => if 0 < c then none else some 0
      | none => some 0
  | none =>
    match cv with
    | some c => if 0 < c then none else some 0
    | none => some 0

/-- Modelled from the amended claim: a row's value field is the declared
value truncated to integer, except that an absent holding, an undeclared
value, or a declared value of zero all yield `None`. -/
def specValue (v : Option ℚ) : Option ℤ :=
  match v with
  | none => none
  | some q => if q = 0 then none else some (pyInt q)

/-! ### Helper lemmas about dictionaries and keys -/

theorem dictGet_eq_none_iff (s : Snapshot) (k : String) :
    dictGet s k = none ↔ k ∉ keys s := by
  induction s with
  | nil => simp [dictGet, keys]
  | cons p t ih =>
    by_cases h : p.1 = k
    · simp only [dictGet, if_pos h, keys, List.map_cons, List.mem_cons]
      simp [h]
    · simp only [dictGet, if_neg h, keys, List.map_cons, List.mem_cons]
      rw [ih]
      unfold keys
      constructor
      · intro hk
        rintro (rfl | hm)
        · exact h rfl
        · exact hk hm
      · intro hk hm
        exact hk (Or.inr hm)

theorem dictGet_mem {s : Snapshot} {k : String} {h : Holding}
    (hget : dictGet s k = some h) : (k, h) ∈ s := by
  induction s with
  | nil => simp [dictGet] at hget
  | cons p t ih =>
    by_cases hk : p.1 = k
    · simp [dictGet, hk] at hget
      subst hk hget
      exact List.mem_cons_self _ _
    · simp [dictGet, hk] at hget
      exact List.mem_cons_of_mem _ (ih hget)

theorem dictGet_of_mem {s : Snapshot} (hnd : (keys s).Nodup)
    {p : String × Holding} (hp : p ∈ s) : dictGet s p.1 = some p.2 := by
  induction s with
  | nil => cases hp
  | cons q t ih =>
    rcases List.mem_cons.mp hp with h | h
    · subst h
      simp [dictGet]
    · have hnd' : (q.1 :: keys t).Nodup := by simpa [keys] using hnd
      have hq : q.1 ≠ p.1 := by
        intro he
        have hmem : p.1 ∈ keys t := List.mem_map.mpr ⟨p, h, rfl⟩
        exact (List.nodup_cons.mp hnd').1 (he ▸ hmem)
      simp [dictGet, hq]
      exact ih (by simpa [keys] using (List.nodup_cons.mp hnd').2) h

theorem valueAt_nonneg {s : Snapshot} (hs : WellFormed s) (k : String) :
    ∀ q, valueAt s k = some q → 0 ≤ q := by
  intro q hq
  unfold valueAt at hq
  rcases hget : dictGet s k with _ | h
  · rw [hget] at hq
    simp at hq
  · rw [hget] at hq
    simp at hq
    exact (hs.2 (k, h) (dictGet_mem hget)).2.2.2 q hq

theorem sharesAt_nonneg {s : Snapshot} (hs : WellFormed s) (k : String) :
    0 ≤ sharesAt s k := by
  unfold sharesAt
  rcases hget : dictGet s k with _ | h
  · exact le_refl 0
  · exact (hs.2 (k, h) (dictGet_mem hget)).2.2.1

theorem keys_length_of_mem {s : Snapshot} (hs : WellFormed s) {k : String}
    (hk : k ∈ keys s) : k.length = 9 := by
  rcases List.mem_map.mp hk with ⟨p, hp, rfl⟩
  exact (hs.2 p hp).2.1

theorem ne_TOTAL_of_length {k : String} (hk : k.length = 9) : k ≠ "TOTAL" := by
  intro h
  subst h
  exact absurd hk (by decide)

/-! ### The shape of the comparison output -/

theorem buildRow_cusip (cur pri : Snapshot) (tcv tpv : ℚ) (k : String) :
    (buildRow cur pri tcv tpv k).cusip = k := rfl

theorem mem_sortedUnion {cur pri : Snapshot} {k : String} :
    k ∈ sortedUnion cur pri ↔ k ∈ keys cur ∨ k ∈ keys pri := by
  unfold sortedUnion
  rw [@List.mem_insertionSort String (fun a b => a ≤ b) strLeDec,
    List.mem_dedup, List.mem_append]

theorem nodup_sortedUnion (cur pri : Snapshot) : (sortedUnion cur pri).Nodup :=
  ((@List.perm_insertionSort String (fun a b => a ≤ b) strLeDec _).nodup_iff).mpr
    (List.nodup_dedup _)

theorem sorted_le_sortedUnion (cur pri : Snapshot) :
    (sortedUnion cur pri).Sorted (fun a b => a ≤ b) :=
  @List.sorted_insertionSort String (fun a b => a ≤ b) strLeDec _ _ _

theorem sorted_lt_sortedUnion (cur pri : Snapshot) :
    (sortedUnion cur pri).Sorted (· < ·) :=
  (sorted_le_sortedUnion cur pri).lt_of_le (nodup_sortedUnion cur pri)

theorem nonTotal_compare {cur pri : Snapshot}
    (hc : WellFormed cur) (hp : WellFormed pri) :
    nonTotal (compare_filings cur pri) =
      (sortedUnion cur pri).map
        (buildRow cur pri (totalValue cur) (totalValue pri)) := by
  unfold nonTotal compare_filings
  rw [List.filter_append]
  have h2 : [totalRow (totalValue cur) (totalValue pri)].filter
      (fun r => r.cusip != "TOTAL") = [] := by
    simp [totalRow]
  rw [h2, List.append_nil, List.filter_map]
  have h3 : ∀ k ∈ sortedUnion cur pri,
      ((fun r => r.cusip != "TOTAL") ∘
        buildRow cur pri (totalValue cur) (totalValue pri)) k = true := by
    intro k hk
    have h9 : k.length = 9 := by
      rcases mem_sortedUnion.mp hk with h | h
      · exact keys_length_of_mem hc h
      · exact keys_length_of_mem hp h
    simpa [buildRow_cusip] using ne_TOTAL_of_length h9
  rw [List.filter_eq_self.mpr h3]

/-! ### Rounding and truncation arithmetic -/

theorem pyRound2_intCast (n : ℤ) : pyRound2 ((n : ℚ)) = n := by
  unfold pyRound2
  have h : ((n : ℚ) * 100) = ((n * 100 : ℤ) : ℚ) := by push_cast; ring
  rw [h, round_intCast]
  push_cast
  ring

theorem pyRound2_zero : pyRound2 0 = 0 := by
  have h : (0 : ℚ) = ((0 : ℤ) : ℚ) := by norm_num
  rw [h, pyRound2_intCast]

theorem pyRound2_neg100 : pyRound2 (-100) = -100 := by
  have h : (-100 : ℚ) = ((-100 : ℤ) : ℚ) := by norm_num
  rw [h, pyRound2_intCast]

theorem pyInt_intCast (n : ℤ) : pyInt ((n : ℚ)) = n := by
  unfold pyInt
  split
  · exact Int.floor_intCast n
  · exact Int.ceil_intCast n

theorem pyInt_zero : pyInt 0 = 0 := by
  have h : (0 : ℚ) = ((0 : ℤ) : ℚ) := by norm_num
  rw [h, pyInt_intCast]

/-! ### Field-level characterization of the comparison rows -/

theorem buildRow_status (cur pri : Snapshot) (tcv tpv : ℚ) (k : String) :
    (buildRow cur pri tcv tpv k).status =
      specStatus (sharesAt pri k) (sharesAt cur k) := rfl

theorem specStatus_mem (p c : ℚ) :
    specStatus p c = "NEW" ∨ specStatus p c = "EXITED" ∨
      specStatus p c = "INCREASED" ∨ specStatus p c = "DECREASED" ∨
      specStatus p c = "UNCHANGED" := by
  unfold specStatus
  split_ifs <;> simp

theorem buildRow_percent_change (cur pri : Snapshot) (tcv tpv : ℚ) (k : String)
    (hpv : ∀ q, valueAt pri k = some q → 0 ≤ q)
    (hcv : ∀ q, valueAt cur k = some q → 0 ≤ q) :
    (buildRow cur pri tcv tpv k).percent_change =
      specPctChange (valueAt pri k) (valueAt cur k) := by
  have hbp : (buildRow cur pri tcv tpv k).percent_change =
      (if numTruthy (valueAt pri k) ∧ 0 < valOr0 (valueAt pri k) then
        if numTruthy (valueAt cur k) then
          some ((valOr0 (valueAt cur k) - valOr0 (valueAt pri k)) /
            valOr0 (valueAt pri k) * 100)
        else some (-100)
      else if numTruthy (valueAt cur k) ∧ 0 < valOr0 (valueAt cur k) then none
      else some 0).map pyRound2 := rfl
  rw [hbp]
  rcases hp : valueAt pri k with _ | p
  · rcases hc : valueAt cur k with _ | c
    · simp [numTruthy, specPctChange, pyRound2_zero]
    · have hc0 : 0 ≤ c := hcv c hc
      by_cases hcz : c = 0
      · subst hcz
        simp [numTruthy, specPctChange, pyRound2_zero]
      · have hcpos : 0 < c := lt_of_le_of_ne hc0 (Ne.symm hcz)
        simp [numTruthy, specPctChange, hcz, valOr0, hcpos]
  · have hp0 : 0 ≤ p := hpv p hp
    by_cases hpz : p = 0
    · subst hpz
      rcases hc : valueAt cur k with _ | c
      · simp [numTruthy, specPctChange, pyRound2_zero]
      · have hc0 : 0 ≤ c := hcv c hc
        by_cases hcz : c = 0
        · subst hcz
          simp [numTruthy, specPctChange, pyRound2_zero]
        · have hcpos : 0 < c := lt_of_le_of_ne hc0 (Ne.symm hcz)
          simp [numTruthy, specPctChange, hcz, valOr0, hcpos]
    · have hppos : 0 < p := lt_of_le_of_ne hp0 (Ne.symm hpz)
      rcases hc : valueAt cur k with _ | c
      · simp [numTruthy, specPctChange, hpz, valOr0, hppos, pyRound2_neg100]
      · by_cases hcz : c = 0
        · subst hcz
          have hval : (0 - p) / p * 100 = -100 := by
            field_simp
          simp [numTruthy, specPctChange, hpz, valOr0, hppos, hval,
            pyRound2_neg100]
        · simp [numTruthy, specPctChange, hpz, hcz, valOr0, hppos]

theorem buildRow_values (cur pri : Snapshot) (tcv tpv : ℚ) (k : String) :
    (buildRow cur pri tcv tpv k).prior_value = specValue (valueAt pri k) ∧
      (buildRow cur pri tcv tpv k).current_value = specValue (valueAt cur k) := by
  have hbp : (buildRow cur pri tcv tpv k).prior_value =
      (if numTruthy (valueAt pri k) then
        some (pyInt (valOr0 (valueAt pri k))) else none) := rfl
  have hbc : (buildRow cur pri tcv tpv k).current_value =
      (if numTruthy (valueAt cur k) then
        some (pyInt (valOr0 (valueAt cur k))) else none) := rfl
  constructor
  · rw [hbp]
    rcases hp : valueAt pri k with _ | p
    · simp [numTruthy, specValue]
    · by_cases hpz : p = 0
      · subst hpz
        simp [numTruthy, specValue]
      · simp [numTruthy, specValue, hpz, valOr0]
  · rw [hbc]
    rcases hc : valueAt cur k with _ | c
    · simp [numTruthy, specValue]
    · by_cases hcz : c = 0
      · subst hcz
        simp [numTruthy, specValue]
      · simp [numTruthy, specValue, hcz, valOr0]

/-! ### Claim C2: sort invariant -/

/-- C2: for every pair of well-formed snapshots, the identifiers of the
non-TOTAL rows of `compare_filings` are exactly the union of the two key
sets, each exactly once, in strictly increasing lexicographic order, and
the synthetic TOTAL row is always the last row. -/
theorem claim2_sort_invariant (cur pri : Snapshot)
    (hc : WellFormed cur) (hp : WellFormed pri) :
    ((nonTotal (compare_filings cur pri)).map (fun r => r.cusip)).Sorted (· < ·) ∧
    (∀ k, k ∈ (nonTotal (compare_filings cur pri)).map (fun r => r.cusip) ↔
      (k ∈ keys cur ∨ k ∈ keys pri)) ∧
    ((nonTotal (compare_filings cur pri)).map (fun r => r.cusip)).Nodup ∧
    ((compare_filings cur pri).map (fun r => r.cusip)).getLast? = some "TOTAL" ∧
    ((compare_filings cur pri).map (fun r => r.status)).getLast? = some "TOTAL" := by
  have hmap : (nonTotal (compare_filings cur pri)).map (fun r => r.cusip) =
      sortedUnion cur pri := by
    rw [nonTotal_compare hc hp, List.map_map]
    have hcomp : ((fun r => r.cusip) ∘
        buildRow cur pri (totalValue cur) (totalValue pri)) = id :=
      funext fun k => buildRow_cusip cur pri _ _ k
    rw [hcomp, List.map_id]
  have hsplit : compare_filings cur pri =
      ((sortedUnion cur pri).map
        (buildRow cur pri (totalValue cur) (totalValue pri))) ++
        [totalRow (totalValue cur) (totalValue pri)] := rfl
  refine ⟨?_, ?_, ?_, ?_, ?_⟩
  · rw [hmap]
    exact sorted_lt_sortedUnion cur pri
  · intro k
    rw [hmap]
    exact mem_sortedUnion
  · rw [hmap]
    exact nodup_sortedUnion cur pri
  · rw [hsplit, List.map_append]
    simp [totalRow]
  · rw [hsplit, List.map_append]
    simp [totalRow]

def w2cur : Snapshot :=
  [("BBBBBBBBB", ⟨"BETA CO", "COM", "BBBBBBBBB", some 400, 50⟩),
   ("AAAAAAAAA", ⟨"APPLE INC", "COM", "AAAAAAAAA", some 1800, 150⟩)]

def w2pri : Snapshot :=
  [("AAAAAAAAA", ⟨"APPLE INC", "COM", "AAAAAAAAA", some 1000, 100⟩)]

/-- Witness for C2 at a concrete pair of snapshots. -/
theorem claim2_witness :
    WellFormed w2cur ∧ WellFormed w2pri ∧
    (((nonTotal (compare_filings w2cur w2pri)).map (fun r => r.cusip)).Sorted (· < ·) ∧
    (∀ k, k ∈ (nonTotal (compare_filings w2cur w2pri)).map (fun r => r.cusip) ↔
      (k ∈ keys w2cur ∨ k ∈ keys w2pri)) ∧
    ((nonTotal (compare_filings w2cur w2pri)).map (fun r => r.cusip)).Nodup ∧
    ((compare_filings w2cur w2pri).map (fun r => r.cusip)).getLast? = some "TOTAL" ∧
    ((compare_filings w2cur w2pri).map (fun r => r.status)).getLast? = some "TOTAL") :=
  ⟨by decide, by decide, claim2_sort_invariant w2cur w2pri (by decide) (by decide)⟩

/-! ### Claim C3: status partition -/

/-- C3: every non-TOTAL row's status is one of the five position
statuses and is determined from the raw share-count pair by the claimed
rule (NEW iff prior = 0 and current > 0; EXITED iff prior > 0 and
current = 0; otherwise by the sign of the delta). -/
theorem claim3_status_partition (cur pri : Snapshot)
    (hc : WellFormed cur) (hp : WellFormed pri) :
    ∀ r ∈ nonTotal (compare_filings cur pri),
      (r.status = "NEW" ∨ r.status = "EXITED" ∨ r.status = "INCREASED" ∨
        r.status = "DECREASED" ∨ r.status = "UNCHANGED") ∧
      r.status = specStatus (sharesAt pri r.cusip) (sharesAt cur r.cusip) := by
  intro r hr
  rw [nonTotal_compare hc hp] at hr
  rcases List.mem_map.mp hr with ⟨k, hk, rfl⟩
  constructor
  · rw [buildRow_status]
    exact specStatus_mem _ _
  · rw [buildRow_status, buildRow_cusip]

def w3cur : Snapshot :=
  [("AAAAAAAAA", ⟨"APPLE INC", "COM", "AAAAAAAAA", some 5000, 300⟩),
   ("DDDDDDDDD", ⟨"DELTA CO", "COM", "DDDDDDDDD", some 70, 7⟩)]

def w3pri : Snapshot :=
  [("AAAAAAAAA", ⟨"APPLE INC", "COM", "AAAAAAAAA", some 4000, 100⟩),
   ("CCCCCCCCC", ⟨"GAMMA CO", "COM", "CCCCCCCCC", some 10, 4⟩)]

/-- Witness for C3 at a concrete pair of snapshots. -/
theorem claim3_witness :
    WellFormed w3cur ∧ WellFormed w3pri ∧
    ∀ r ∈ nonTotal (compare_filings w3cur w3pri),
      (r.status = "NEW" ∨ r.status = "EXITED" ∨ r.status = "INCREASED" ∨
        r.status = "DECREASED" ∨ r.status = "UNCHANGED") ∧
      r.status = specStatus (sharesAt w3pri r.cusip) (sharesAt w3cur r.cusip) :=
  ⟨by decide, by decide, claim3_status_partition w3cur w3pri (by decide) (by decide)⟩

/-! ### Claim C4: percent change -/

/-- C4: every non-TOTAL row's percentChange follows the claimed case
analysis on the two declared values, rounded to 2 decimals when not
`None`. -/
theorem claim4_percent_change (cur pri : Snapshot)
    (hc : WellFormed cur) (hp : WellFormed pri) :
    ∀ r ∈ nonTotal (compare_filings cur pri),
      r.percent_change =
        specPctChange (valueAt pri r.cusip) (valueAt cur r.cusip) := by
  intro r hr
  rw [nonTotal_compare hc hp] at hr
  rcases List.mem_map.mp hr with ⟨k, hk, rfl⟩
  rw [buildRow_cusip]
  exact buildRow_percent_change cur pri _ _ k
    (valueAt_nonneg hp k) (valueAt_nonneg hc k)

def w4cur : Snapshot :=
  [("AAAAAAAAA", ⟨"APPLE INC", "COM", "AAAAAAAAA", some 1800, 150⟩),
   ("BBBBBBBBB", ⟨"BETA CO", "COM", "BBBBBBBBB", some 400, 50⟩)]

def w4pri : Snapshot :=
  [("AAAAAAAAA", ⟨"APPLE INC", "COM", "AAAAAAAAA", some 1000, 100⟩),
   ("EEEEEEEEE", ⟨"EPSILON CO", "COM", "EEEEEEEEE", some 900, 10⟩)]

/-- Witness for C4 at a concrete pair of snapshots. -/
theorem claim4_witness :
    WellFormed w4cur ∧ WellFormed w4pri ∧
    ∀ r ∈ nonTotal (compare_filings w4cur w4pri),
      r.percent_change =
        specPctChange (valueAt w4pri r.cusip) (valueAt w4cur r.cusip) :=
  ⟨by decide, by decide, claim4_percent_change w4cur w4pri (by decide) (by decide)⟩

/-! ### Claim C5: value fields (corrected) -/

def cex5cur : Snapshot :=
  [("AAAAAAAAA", ⟨"ACME CORP", "COM", "AAAAAAAAA", some 0, 1⟩)]

def cex5pri : Snapshot := []

/-- C5 counterexample: a well-formed holding with a declared value of 0
produces a row whose `current_value` is `None`, not the truncated
declared value 0 the claim requires. -/
theorem claim5_counterexample :
    WellFormed cex5cur ∧ WellFormed cex5pri ∧
    ¬ (∀ r ∈ nonTotal (compare_filings cex5cur cex5pri),
        r.prior_value = (valueAt cex5pri r.cusip).map pyInt ∧
        r.current_value = (valueAt cex5cur r.cusip).map pyInt) := by
  decide

/-- C5 as amended: a row's value field is `None` exactly when that
side's holding is absent, its value is undeclared, or its declared value
is zero; otherwise it is the declared value truncated to integer. -/
theorem claim5_amended (cur pri : Snapshot)
    (hc : WellFormed cur) (hp : WellFormed pri) :
    ∀ r ∈ nonTotal (compare_filings cur pri),
      r.prior_value = specValue (valueAt pri r.cusip) ∧
      r.current_value = specValue (valueAt cur r.cusip) := by
  intro r hr
  rw [nonTotal_compare hc hp] at hr
  rcases List.mem_map.mp hr with ⟨k, hk, rfl⟩
  rw [buildRow_cusip]
  exact buildRow_values cur pri _ _ k

def w5cur : Snapshot :=
  [("AAAAAAAAA", ⟨"APPLE INC", "COM", "AAAAAAAAA", some 1800, 150⟩)]

def w5pri : Snapshot :=
  [("AAAAAAAAA", ⟨"APPLE INC", "COM", "AAAAAAAAA", none, 100⟩),
   ("FFFFFFFFF", ⟨"ZETA CO", "COM", "FFFFFFFFF", some 0, 10⟩)]

/-- Witness for the amended C5 at a concrete pair of snapshots. -/
theorem claim5_witness :
    WellFormed w5cur ∧ WellFormed w5pri ∧
    ∀ r ∈ nonTotal (compare_filings w5cur w5pri),
      r.prior_value = specValue (valueAt w5pri r.cusip) ∧
      r.current_value = specValue (valueAt w5cur r.cusip) :=
  ⟨by decide, by decide, claim5_amended w5cur w5pri (by decide) (by decide)⟩

/-! ### Claim C1: summary statistics (corrected) -/

theorem summaryStep_eq (s : Summary) (r : Row) :
    summaryStep s r =
      { total_positions := s.total_positions
        new_positions := s.new_positions + (if r.status = "NEW" then 1 else 0)
        exited_positions := s.exited_positions + (if r.status = "EXITED" then 1 else 0)
        increased_positions :=
          s.increased_positions + (if r.status = "INCREASED" then 1 else 0)
        decreased_positions :=
          s.decreased_positions + (if r.status = "DECREASED" then 1 else 0)
        unchanged_positions :=
          s.unchanged_positions + (if r.status = "UNCHANGED" then 1 else 0)
        total_current_value := s.total_current_value + cvInt r } := by
  unfold summaryStep cvInt
  rcases hcv : r.current_value with _ | v
  · simp only [hcv]
    split_ifs <;> simp_all
  · simp only [hcv]
    split_ifs <;> simp_all

theorem foldl_summaryStep (l : List Row) (s : Summary) :
    l.foldl summaryStep s =
      { total_positions := s.total_positions
        new_positions :=
          s.new_positions + (l.filter (fun r => r.status == "NEW")).length
        exited_positions :=
          s.exited_positions + (l.filter (fun r => r.status == "EXITED")).length
        increased_positions :=
          s.increased_positions + (l.filter (fun r => r.status == "INCREASED")).length
        decreased_positions :=
          s.decreased_positions + (l.filter (fun r => r.status == "DECREASED")).length
        unchanged_positions :=
          s.unchanged_positions + (l.filter (fun r => r.status == "UNCHANGED")).length
        total_current_value := s.total_current_value + (l.map cvInt).sum } := by
  induction l generalizing s with
  | nil => simp
  | cons r t ih =>
    rw [List.foldl_cons, summaryStep_eq, ih]
    simp only [List.filter_cons, List.map_cons, List.sum_cons, Summary.mk.injEq]
    refine ⟨trivial, ?_, ?_, ?_, ?_, ?_, by omega⟩ <;>
      split_ifs <;> simp_all <;> omega

theorem calculate_summary_eq (l : List Row) :
    calculate_summary l =
      { total_positions := l.length
        new_positions := (l.filter (fun r => r.status == "NEW")).length
        exited_positions := (l.filter (fun r => r.status == "EXITED")).length
        increased_positions := (l.filter (fun r => r.status == "INCREASED")).length
        decreased_positions := (l.filter (fun r => r.status == "DECREASED")).length
        unchanged_positions := (l.filter (fun r => r.status == "UNCHANGED")).length
        total_current_value := (l.map cvInt).sum } := by
  unfold calculate_summary
  rw [foldl_summaryStep]
  simp

theorem cvInt_buildRow (cur pri : Snapshot) (tcv tpv : ℚ) (k : String) :
    cvInt (buildRow cur pri tcv tpv k) = pyInt (valOr0 (valueAt cur k)) := by
  have h : (buildRow cur pri tcv tpv k).current_value =
      (if numTruthy (valueAt cur k) then
        some (pyInt (valOr0 (valueAt cur k))) else none) := rfl
  unfold cvInt
  rw [h]
  rcases hv : valueAt cur k with _ | q
  · simp [numTruthy, valOr0, pyInt_zero]
  · by_cases hq : q = 0
    · subst hq
      simp [numTruthy, valOr0, pyInt_zero]
    · simp [numTruthy, hq, valOr0]

theorem pvInt_buildRow (cur pri : Snapshot) (tcv tpv : ℚ) (k : String) :
    pvInt (buildRow cur pri tcv tpv k) = pyInt (valOr0 (valueAt pri k)) := by
  have h : (buildRow cur pri tcv tpv k).prior_value =
      (if numTruthy (valueAt pri k) then
        some (pyInt (valOr0 (valueAt pri k))) else none) := rfl
  unfold pvInt
  rw [h]
  rcases hv : valueAt pri k with _ | q
  · simp [numTruthy, valOr0, pyInt_zero]
  · by_cases hq : q = 0
    · subst hq
      simp [numTruthy, valOr0, pyInt_zero]
    · simp [numTruthy, hq, valOr0]

theorem exists_int_sum (l : List ℚ) (h : ∀ x ∈ l, ∃ n : ℤ, x = (n : ℚ)) :
    ∃ m : ℤ, l.sum = (m : ℚ) := by
  induction l with
  | nil => exact ⟨0, by simp⟩
  | cons x t ih =>
    rcases h x (List.mem_cons_self x t) with ⟨n, hn⟩
    rcases ih (fun y hy => h y (List.mem_cons_of_mem x hy)) with ⟨m, hm⟩
    exact ⟨n + m, by simp [hn, hm]⟩

theorem sum_pyInt_of_integral (l : List ℚ)
    (h : ∀ x ∈ l, ∃ n : ℤ, x = (n : ℚ)) :
    (l.map pyInt).sum = pyInt l.sum := by
  induction l with
  | nil => simp [pyInt_zero]
  | cons x t ih =>
    rcases h x (List.mem_cons_self x t) with ⟨n, hn⟩
    have ht := fun y hy => h y (List.mem_cons_of_mem x hy)
    rcases exists_int_sum t ht with ⟨m, hm⟩
    rw [List.map_cons, List.sum_cons, List.sum_cons, ih ht, hn, hm,
      pyInt_intCast, pyInt_intCast]
    have hx : ((n : ℚ)) + ((m : ℚ)) = (((n + m : ℤ)) : ℚ) := by push_cast; ring
    rw [hx, pyInt_intCast]

theorem sum_pyInt_val (s : Snapshot) (hnd : (keys s).Nodup)
    (hint : IntegralValues s) (l : List String) (hl : l.Nodup)
    (hsub : ∀ k ∈ keys s, k ∈ l) :
    (l.map (fun k => pyInt (valOr0 (valueAt s k)))).sum = pyInt (totalValue s) := by
  have h1 : (l.map (fun k => pyInt (valOr0 (valueAt s k)))).sum =
      l.toFinset.sum (fun k => pyInt (valOr0 (valueAt s k))) :=
    (List.sum_toFinset _ hl).symm
  have h2 : (keys s).toFinset.sum (fun k => pyInt (valOr0 (valueAt s k))) =
      l.toFinset.sum (fun k => pyInt (valOr0 (valueAt s k))) := by
    apply Finset.sum_subset
    · intro x hx
      exact List.mem_toFinset.mpr (hsub x (List.mem_toFinset.mp hx))
    · intro x _ hxs
      have hxk : x ∉ keys s := fun hmem => hxs (List.mem_toFinset.mpr hmem)
      have hnone : dictGet s x = none := (dictGet_eq_none_iff s x).mpr hxk
      simp [valueAt, hnone, valOr0, pyInt_zero]
  have h3 : (keys s).toFinset.sum (fun k => pyInt (valOr0 (valueAt s k))) =
      ((keys s).map (fun k => pyInt (valOr0 (valueAt s k)))).sum :=
    List.sum_toFinset _ hnd
  have h4 : ((keys s).map (fun k => pyInt (valOr0 (valueAt s k)))).sum =
      (s.map (fun p => pyInt (valOr0 p.2.value))).sum := by
    unfold keys
    rw [List.map_map]
    congr 1
    apply List.map_congr_left
    intro p hp
    have hget : dictGet s p.1 = some p.2 := dictGet_of_mem hnd hp
    simp [Function.comp, valueAt, hget]
  have h5 : (s.map (fun p => pyInt (valOr0 p.2.value))).sum =
      pyInt (totalValue s) := by
    unfold totalValue
    have hmm : s.map (fun p => pyInt (valOr0 p.2.value)) =
        (s.map (fun p => valOr0 p.2.value)).map pyInt := by
      rw [List.map_map]
      rfl
    rw [hmm]
    apply sum_pyInt_of_integral
    intro x hx
    rcases List.mem_map.mp hx with ⟨p, hp, rfl⟩
    rcases hv : p.2.value with _ | q
    · exact ⟨0, by simp [valOr0]⟩
    · rcases hint p hp q hv with ⟨n, hn⟩
      exact ⟨n, by simp [valOr0, hn]⟩
  rw [h1, ← h2, h3, h4, h5]

def cex1cur : Snapshot :=
  [("AAAAAAAAA", ⟨"ALPHA CO", "COM", "AAAAAAAAA", some (mkRat 1 2), 0⟩),
   ("BBBBBBBBB", ⟨"BETA CO", "COM", "BBBBBBBBB", some (mkRat 1 2), 0⟩)]

def cex1pri : Snapshot := []

/-- C1 counterexample: at this well-formed pair, `total_positions`
counts the TOTAL row, the summary's total current value double-counts
the TOTAL row, and the per-row truncated values do not sum to the TOTAL
row's value when declared values are fractional. -/
theorem claim1_counterexample :
    WellFormed cex1cur ∧ WellFormed cex1pri ∧
    ¬ ((calculate_summary (compare_filings cex1cur cex1pri)).total_positions =
          (nonTotal (compare_filings cex1cur cex1pri)).length ∧
        (calculate_summary (compare_filings cex1cur cex1pri)).total_current_value =
          ((nonTotal (compare_filings cex1cur cex1pri)).map cvInt).sum ∧
        ((nonTotal (compare_filings cex1cur cex1pri)).map cvInt).sum =
          pyInt (totalValue cex1cur)) :=
  of_decide_eq_true (by with_unfolding_all rfl)

/-- C1 as amended: the five per-status counts of the summary count
exactly the non-TOTAL rows with that status; `total_positions` counts
every row including the TOTAL one; the summary's total current value
sums `current_value` over all rows including TOTAL (so it equals the
non-TOTAL sum plus the TOTAL row's value); and when declared values are
whole numbers, the sum of `current_value` over non-TOTAL rows equals the
TOTAL row's `current_value` (symmetrically for prior). -/
theorem claim1_amended (cur pri : Snapshot)
    (hc : WellFormed cur) (hp : WellFormed pri) :
    (calculate_summary (compare_filings cur pri)).new_positions =
      ((nonTotal (compare_filings cur pri)).filter
        (fun r => r.status == "NEW")).length ∧
    (calculate_summary (compare_filings cur pri)).exited_positions =
      ((nonTotal (compare_filings cur pri)).filter
        (fun r => r.status == "EXITED")).length ∧
    (calculate_summary (compare_filings cur pri)).increased_positions =
      ((nonTotal (compare_filings cur pri)).filter
        (fun r => r.status == "INCREASED")).length ∧
    (calculate_summary (compare_filings cur pri)).decreased_positions =
      ((nonTotal (compare_filings cur pri)).filter
        (fun r => r.status == "DECREASED")).length ∧
    (calculate_summary (compare_filings cur pri)).unchanged_positions =
      ((nonTotal (compare_filings cur pri)).filter
        (fun r => r.status == "UNCHANGED")).length ∧
    (calculate_summary (compare_filings cur pri)).total_positions =
      (nonTotal (compare_filings cur pri)).length + 1 ∧
    (calculate_summary (compare_filings cur pri)).total_current_value =
      ((nonTotal (compare_filings cur pri)).map cvInt).sum +
        pyInt (totalValue cur) ∧
    (IntegralValues cur →
      ((nonTotal (compare_filings cur pri)).map cvInt).sum =
        pyInt (totalValue cur)) ∧
    (IntegralValues pri →
      ((nonTotal (compare_filings cur pri)).map pvInt).sum =
        pyInt (totalValue pri)) := by
  have hA := nonTotal_compare hc hp
  have hsplit : compare_filings cur pri =
      ((sortedUnion cur pri).map
        (buildRow cur pri (totalValue cur) (totalValue pri))) ++
        [totalRow (totalValue cur) (totalValue pri)] := rfl
  have hcons : IntegralValues cur →
      ((nonTotal (compare_filings cur pri)).map cvInt).sum =
        pyInt (totalValue cur) := by
    intro hint
    rw [hA, List.map_map]
    have hcongr : (sortedUnion cur pri).map
        (cvInt ∘ buildRow cur pri (totalValue cur) (totalValue pri)) =
        (sortedUnion cur pri).map
          (fun k => pyInt (valOr0 (valueAt cur k))) := by
      apply List.map_congr_left
      intro k _
      exact cvInt_buildRow cur pri _ _ k
    rw [hcongr]
    exact sum_pyInt_val cur hc.1 hint (sortedUnion cur pri)
      (nodup_sortedUnion cur pri)
      (fun k hk => mem_sortedUnion.mpr (Or.inl hk))
  have hconsP : IntegralValues pri →
      ((nonTotal (compare_filings cur pri)).map pvInt).sum =
        pyInt (totalValue pri) := by
    intro hint
    rw [hA, List.map_map]
    have hcongr : (sortedUnion cur pri).map
        (pvInt ∘ buildRow cur pri (totalValue cur) (totalValue pri)) =
        (sortedUnion cur pri).map
          (fun k => pyInt (valOr0 (valueAt pri k))) := by
      apply List.map_congr_left
      intro k _
      exact pvInt_buildRow cur pri _ _ k
    rw [hcongr]
    exact sum_pyInt_val pri hp.1 hint (sortedUnion cur pri)
      (nodup_sortedUnion cur pri)
      (fun k hk => mem_sortedUnion.mpr (Or.inr hk))
  rw [calculate_summary_eq, hA, hsplit]
  refine ⟨?_, ?_, ?_, ?_, ?_, ?_, ?_, ?_, ?_⟩
  · simp [List.filter_append, totalRow]
  · simp [List.filter_append, totalRow]
  · simp [List.filter_append, totalRow]
  · simp [List.filter_append, totalRow]
  · simp [List.filter_append, totalRow]
  · simp
  · simp [List.map_append, cvInt, totalRow]
  · intro h
    have hx := hcons h
    rw [hA] at hx
    exact hx
  · intro h
    have hx := hconsP h
    rw [hA] at hx
    exact hx

def w1cur : Snapshot :=
  [("AAAAAAAAA", ⟨"APPLE INC", "COM", "AAAAAAAAA", some 1800, 150⟩),
   ("GGGGGGGGG", ⟨"ETA CO", "COM", "GGGGGGGGG", some 400, 50⟩)]

def w1pri : Snapshot :=
  [("AAAAAAAAA", ⟨"APPLE INC", "COM", "AAAAAAAAA", some 1000, 100⟩)]

/-- Witness for the amended C1 at a concrete pair of snapshots. -/
theorem claim1_witness :
    WellFormed w1cur ∧ WellFormed w1pri ∧
    ((calculate_summary (compare_filings w1cur w1pri)).new_positions =
      ((nonTotal (compare_filings w1cur w1pri)).filter
        (fun r => r.status == "NEW")).length ∧
    (calculate_summary (compare_filings w1cur w1pri)).exited_positions =
      ((nonTotal (compare_filings w1cur w1pri)).filter
        (fun r => r.status == "EXITED")).length ∧
    (calculate_summary (compare_filings w1cur w1pri)).increased_positions =
      ((nonTotal (compare_filings w1cur w1pri)).filter
        (fun r => r.status == "INCREASED")).length ∧
    (calculate_summary (compare_filings w1cur w1pri)).decreased_positions =
      ((nonTotal (compare_filings w1cur w1pri)).filter
        (fun r => r.status == "DECREASED")).length ∧
    (calculate_summary (compare_filings w1cur w1pri)).unchanged_positions =
      ((nonTotal (compare_filings w1cur w1pri)).filter
        (fun r => r.status == "UNCHANGED")).length ∧
    (calculate_summary (compare_filings w1cur w1pri)).total_positions =
      (nonTotal (compare_filings w1cur w1pri)).length + 1 ∧
    (calculate_summary (compare_filings w1cur w1pri)).total_current_value =
      ((nonTotal (compare_filings w1cur w1pri)).map cvInt).sum +
        pyInt (totalValue w1cur) ∧
    (IntegralValues w1cur →
      ((nonTotal (compare_filings w1cur w1pri)).map cvInt).sum =
        pyInt (totalValue w1cur)) ∧
    (IntegralValues w1pri →
      ((nonTotal (compare_filings w1cur w1pri)).map pvInt).sum =
        pyInt (totalValue w1pri))) :=
  ⟨by decide, by decide, claim1_amended w1cur w1pri (by decide) (by decide)⟩

/-! ### The holdings XML parser

`xml.etree.ElementTree` elements are modelled as rose trees carrying a
tag, optional text, and a child list; `ET.fromstring` itself is an
external library routine and enters the embedding as an explicit
function parameter of `parse_13f_xml`. -/

/-- An XML element as exposed by `ElementTree`: qualified tag, optional
text and the list of direct children, in document order. -/
inductive XElem where
  | mk (tag : String) (text : Option String) (children : List XElem)

def XElem.tag : XElem → String
  | .mk t _ _ => t

def XElem.text : XElem → Option String
  | .mk _ tx _ => tx

def XElem.children : XElem → List XElem
  | .mk _ _ cs => cs

def braceL : Char := Char.ofNat 123

def braceR : Char := Char.ofNat 125

/-- Python `str.strip()`: drop leading and trailing whitespace. -/
def pyStripChars (l : List Char) : List Char :=
  ((l.dropWhile Char.isWhitespace).reverse.dropWhile Char.isWhitespace).reverse

def pyStripStr (s : String) : String := String.mk (pyStripChars s.toList)

/-- Python `str.strip(c)` for a single strip character. -/
def pyStripCharArg (c : Char) (l : List Char) : List Char :=
  ((l.dropWhile (· = c)).reverse.dropWhile (· = c)).reverse

/-- `get_namespace(root)`: the namespace URI between the braces of a
qualified root tag (`root.tag.split("\x7d")[0].strip("\x7b")`). -/
def get_namespace (root : XElem) : Option String :=
  let t := root.tag.toList
  if t.head? = some braceL then
    some (String.mk (pyStripCharArg braceL (t.takeWhile (· ≠ braceR))))
  else none

/-- An ElementTree-style namespace-qualified tag `\x7bns\x7dtag`. -/
def qualTag (n : String) (tag : String) : String :=
  "\x7b" ++ n ++ "\x7d" ++ tag

/-- `elem.find(tag)`: the first direct child with the given tag. -/
def et_find (e : XElem) (tg : String) : Option XElem :=
  e.children.find? (fun c => c.tag == tg)

/-- `find_text(elem, tag, ns)`: stripped text of the first matching
child, trying the namespace-qualified tag first, then the bare tag. -/
def find_text (e : XElem) (tag : String) (ns : Option String) : Option String :=
  match ns with
  | some n =>
    match et_find e (qualTag n tag) with
    | some c =>
      match c.text with
      | some t => some (pyStripStr t)
      | none =>
        match et_find e tag with
        | some c2 => c2.text.map pyStripStr
        | none => none
    | none =>
      match et_find e tag with
      | some c2 => c2.text.map pyStripStr
      | none => none
  | none =>
    match et_find e tag with
    | some c2 => c2.text.map pyStripStr
    | none => none

/-- Numeric value of a digit string (most significant first). -/
def digitsVal (cs : List Char) : ℕ :=
  cs.foldl (fun a c => a * 10 + (c.toNat - 48)) 0

/-- Unsigned decimal literal: digits with an optional fractional part.
Models the decimal fragment of Python `float()` relevant to the
holdings format. -/
def parseUnsigned (cs : List Char) : Option ℚ :=
  let ip := cs.takeWhile (· ≠ '.')
  let rest := cs.dropWhile (· ≠ '.')
  match rest with
  | [] =>
    if ip ≠ [] ∧ ip.all Char.isDigit then some ((digitsVal ip : ℚ)) else none
  | _ :: fp =>
    if (ip ≠ [] ∨ fp ≠ []) ∧ ip.all Char.isDigit ∧ fp.all Char.isDigit then
      some ((digitsVal ip : ℚ) + (digitsVal fp : ℚ) / ((10 : ℚ) ^ fp.length))
    else none

/-- A non-empty run of decimal digits, as a natural number. -/
def parseDigitsNat (ds : List Char) : Option ℕ :=
  if ds ≠ [] ∧ ds.all Char.isDigit then some (digitsVal ds) else none

/-- The exponent part after `e`/`E`: an optional sign and a non-empty
digit run. -/
def parseExp (cs : List Char) : Option ℤ :=
  match cs with
  | [] => none
  | c :: rest =>
    if c = '-' then (parseDigitsNat rest).map (fun n => -(n : ℤ))
    else if c = '+' then (parseDigitsNat rest).map (fun n => (n : ℤ))
    else (parseDigitsNat (c :: rest)).map (fun n => (n : ℤ))

/-- A finite unsigned `float()` literal: a decimal mantissa with an
optional `e`/`E` exponent. -/
def parseFinite (cs : List Char) : Option ℚ :=
  match cs.dropWhile (fun c => !(c == 'e' || c == 'E')) with
  | [] => parseUnsigned (cs.takeWhile (fun c => !(c == 'e' || c == 'E')))
  | _ :: ex =>
    match parseUnsigned (cs.takeWhile (fun c => !(c == 'e' || c == 'E'))),
        parseExp ex with
    | some m, some z => some (m * (10 : ℚ) ^ z)
    | _, _ => none

/-- PEP-515 underscore placement: every underscore sits directly
between two digits. The first argument carries the preceding
character. -/
def underscoresValid : Option Char → List Char → Bool
  | _, [] => true
  | prev, c :: rest =>
    if c = '_' then
      (match prev with
        | some p => p.isDigit
        | none => false) &&
      (match rest with
        | r :: _ => r.isDigit
        | [] => false) &&
      underscoresValid (some c) rest
    else underscoresValid (some c) rest

/-- The whitespace characters `float()` strips around a literal. -/
def isPyFloatWs (c : Char) : Bool :=
  c = ' ' ∨ c = '\t' ∨ c = '\n' ∨ c = '\r' ∨
    c = Char.ofNat 11 ∨ c = Char.ofNat 12

/-- Strip `float()`-style whitespace from both ends. -/
def pyFloatStrip (l : List Char) : List Char :=
  ((l.dropWhile isPyFloatWs).reverse.dropWhile isPyFloatWs).reverse

/-- A `float()` literal after whitespace and underscore handling: an
optional sign followed by a finite unsigned literal. -/
def parseSigned : List Char → Option ℚ
  | [] => none
  | c :: rest =>
    if c = '-' then (parseFinite rest).map Neg.neg
    else if c = '+' then parseFinite rest
    else parseFinite (c :: rest)

/-- Modelled `float(s)` for finite values: surrounding whitespace is
stripped, a single optional sign is followed by decimal digits with an
optional fractional part and an optional signed exponent, and PEP-515
underscores are accepted between digits. The infinity and NaN spellings
`float()` also accepts denote non-finite values with no counterpart in
`ℚ` and are mapped to `none`; statements that depend on the distinction
exclude them explicitly via `isFloatSpecial`. -/
def parseNum (s : String) : Option ℚ :=
  if underscoresValid none (pyFloatStrip s.toList) then
    parseSigned ((pyFloatStrip s.toList).filter (fun c => c != '_'))
  else none

/-- `s.replace(",", "")`. -/
def stripCommas (s : String) : String :=
  String.mk (s.toList.filter (· ≠ ','))

/-- `find_text(it, "cusip", ns)` followed by the skip-if-falsy check:
`none` when the identifier is absent or empty after stripping. -/
def cusipOf (ns : Option String) (it : XElem) : Option String :=
  match find_text it "cusip" ns with
  | none => none
  | some s => if s = "" then none else some s

/-- The declared value of one holding entry: `None` when missing, empty
or non-numeric, else the parsed number with thousands separators
stripped. -/
def valueOf (ns : Option String) (it : XElem) : Option ℚ :=
  match find_text it "value" ns with
  | none => none
  | some s => if s = "" then none else parseNum (stripCommas s)

/-- The `shrs_elem` lookup of the extraction loop: direct find of the
share-amount group, namespace-qualified when a namespace is present
(with no bare-name fallback, mirroring the source). -/
def shrsElemOf (ns : Option String) (it : XElem) : Option XElem :=
  match ns with
  | some n => et_find it (qualTag n "shrsOrPrnAmt")
  | none => et_find it "shrsOrPrnAmt"

/-- The share count of one holding entry: nested under `shrsOrPrnAmt`,
defaulting to 0 when missing, empty or non-numeric. -/
def sharesOf (ns : Option String) (it : XElem) : ℚ :=
  match shrsElemOf ns it with
  | none => 0
  | some se =>
    match find_text se "sshPrnamt" ns with
    | none => 0
    | some s => if s = "" then 0 else (parseNum (stripCommas s)).getD 0

/-- The position dictionary entry built from one holding element. -/
def holdingOf (ns : Option String) (it : XElem) : Holding :=
  { issuer := (find_text it "nameOfIssuer" ns).getD ""
    titleOfClass := (find_text it "titleOfClass" ns).getD ""
    cusip := (cusipOf ns it).getD ""
    value := valueOf ns it
    shares := sharesOf ns it }

mutual

/-- All elements of a subtree carrying the given tag, in document
(preorder) order — the per-node step of `root.findall(".//tag")`. -/
def subtreeWithTag (tg : String) : XElem → List XElem
  | .mk t tx cs =>
    (if t = tg then [XElem.mk t tx cs] else []) ++ subtreeListWithTag tg cs

/-- `subtreeWithTag` mapped over a forest, concatenated in order. -/
def subtreeListWithTag (tg : String) : List XElem → List XElem
  | [] => []
  | c :: cs => subtreeWithTag tg c ++ subtreeListWithTag tg cs

end

/-- `root.findall(".//tag")`: matching descendants of the root, the
root itself excluded. -/
def findall_desc (root : XElem) (tg : String) : List XElem :=
  subtreeListWithTag tg root.children

/-- The `infoTable` lookup tag, namespace-qualified when the document
has a namespace. -/
def infoTableTag (ns : Option String) : String :=
  match ns with
  | some n => qualTag n "infoTable"
  | none => "infoTable"

/-- The holding-entry elements the parser iterates over. -/
def parse_infoTables (root : XElem) : List XElem :=
  findall_desc root (infoTableTag (get_namespace root))

/-- Python dict assignment `m[k] = h`: overwrite in place when the key
exists, else append. -/
def dictSet (m : Snapshot) (k : String) (h : Holding) : Snapshot :=
  if k ∈ keys m then
    m.map (fun p => if p.1 = k then (k, h) else p)
  else m ++ [(k, h)]

/-- One iteration of the extraction loop: skip the entry when the
identifier is absent or empty, else store it under its identifier. -/
def insertEntry (ns : Option String) (m : Snapshot) (it : XElem) : Snapshot :=
  match cusipOf ns it with
  | none => m
  | some k => dictSet m k (holdingOf ns it)

/-- The element-extraction phase of `parse_13f_xml` applied to a parsed
root element. -/
def extractPositions (root : XElem) : Snapshot :=
  (parse_infoTables root).foldl (insertEntry (get_namespace root)) []

/-! ### Dictionary lemmas for the extraction loop -/

theorem keys_dictSet (m : Snapshot) (k : String) (h : Holding) :
    keys (dictSet m k h) = if k ∈ keys m then keys m else keys m ++ [k] := by
  unfold dictSet
  split_ifs with hk
  · unfold keys
    rw [List.map_map]
    apply List.map_congr_left
    intro p _
    by_cases hp : p.1 = k
    · simp [hp]
    · simp [hp]
  · unfold keys
    simp

theorem dictGet_append (m l : Snapshot) (k : String) :
    dictGet (m ++ l) k =
      match dictGet m k with
      | some h => some h
      | none => dictGet l k := by
  induction m with
  | nil => simp [dictGet]
  | cons p t ih =>
    by_cases hp : p.1 = k
    · simp [dictGet, hp]
    · simp [dictGet, hp, ih]

theorem dictGet_map_self (m : Snapshot) (k : String) (h : Holding)
    (hmem : k ∈ keys m) :
    dictGet (m.map (fun p => if p.1 = k then (k, h) else p)) k = some h := by
  induction m with
  | nil => cases hmem
  | cons p t ih =>
    by_cases hp : p.1 = k
    · simp [dictGet, hp]
    · have hmt : k ∈ keys t := by
        rcases List.mem_map.mp hmem with ⟨q, hq, rfl⟩
        rcases List.mem_cons.mp hq with rfl | hqt
        · exact absurd rfl hp
        · exact List.mem_map.mpr ⟨q, hqt, rfl⟩
      simp only [List.map_cons, dictGet, if_neg hp]
      exact ih hmt

theorem dictGet_map_other (m : Snapshot) (k : String) (h : Holding)
    (k' : String) (hne : k' ≠ k) :
    dictGet (m.map (fun p => if p.1 = k then (k, h) else p)) k' =
      dictGet m k' := by
  induction m with
  | nil => rfl
  | cons p t ih =>
    by_cases hp : p.1 = k
    · have h1 : ¬ (k = k') := fun he => hne he.symm
      have h2 : ¬ (p.1 = k') := by rw [hp]; exact h1
      simp only [List.map_cons, dictGet, if_pos hp, if_neg h1, if_neg h2]
      exact ih
    · by_cases hp' : p.1 = k'
      · simp [dictGet, hp, hp', hne]
      · simp only [List.map_cons, dictGet, if_neg hp, if_neg hp']
        exact ih

theorem dictGet_dictSet (m : Snapshot) (k : String) (h : Holding) (k' : String) :
    dictGet (dictSet m k h) k' = if k' = k then some h else dictGet m k' := by
  by_cases hk' : k' = k
  · subst hk'
    rw [if_pos rfl]
    unfold dictSet
    by_cases hmem : k' ∈ keys m
    · rw [if_pos hmem]
      exact dictGet_map_self m k' h hmem
    · rw [if_neg hmem, dictGet_append,
        (dictGet_eq_none_iff m k').mpr hmem]
      simp [dictGet]
  · rw [if_neg hk']
    unfold dictSet
    by_cases hmem : k ∈ keys m
    · rw [if_pos hmem]
      exact dictGet_map_other m k h k' hk'
    · rw [if_neg hmem, dictGet_append]
      have hk2 : ¬ (k = k') := fun he => hk' he.symm
      rcases hg : dictGet m k' with _ | h'
      · simp [dictGet, hk2]
      · simp

theorem nodup_keys_dictSet (m : Snapshot) (k : String) (h : Holding)
    (hnd : (keys m).Nodup) : (keys (dictSet m k h)).Nodup := by
  rw [keys_dictSet]
  split_ifs with hk
  · exact hnd
  · simp [List.nodup_append, hnd, hk]

theorem cusipOf_ne_empty {ns : Option String} {it : XElem} {k : String}
    (hk : cusipOf ns it = some k) : k ≠ "" := by
  unfold cusipOf at hk
  rcases hft : find_text it "cusip" ns with _ | s
  · rw [hft] at hk
    cases hk
  · rw [hft] at hk
    by_cases hs : s = ""
    · simp [hs] at hk
    · simp [hs] at hk
      subst hk
      exact hs

theorem dictGet_fold (ns : Option String) (its : List XElem) (m : Snapshot)
    (k : String) :
    dictGet (its.foldl (insertEntry ns) m) k =
      match (its.filter (fun it => cusipOf ns it == some k)).getLast? with
      | some it => some (holdingOf ns it)
      | none => dictGet m k := by
  induction its generalizing m with
  | nil => simp
  | cons it t ih =>
    rw [List.foldl_cons, ih, List.filter_cons]
    rcases hc : cusipOf ns it with _ | k''
    · have hstep : insertEntry ns m it = m := by
        unfold insertEntry
        rw [hc]
      simp only [hc, hstep]
      have hfalse : ((none : Option String) == some k) = false := rfl
      rw [hfalse]
      simp
    · have hstep : insertEntry ns m it = dictSet m k'' (holdingOf ns it) := by
        unfold insertEntry
        rw [hc]
      by_cases hkk : k'' = k
      · subst hkk
        have htrue : (some k'' == some k'') = true := by simp
        simp only [hc, hstep, htrue, if_true]
        rcases hf : t.filter (fun it => cusipOf ns it == some k'') with _ | ⟨x, xs⟩
        · simp [dictGet_dictSet]
        · have hlast : (x :: xs).getLast? = some ((x :: xs).getLast (by simp)) :=
            List.getLast?_eq_getLast _ _
          rw [List.getLast?_cons_cons, hlast]
      · have hfalse : (some k'' == some k) = false := by
          simp [hkk]
        simp only [hc, hstep, hfalse]
        have hget : dictGet (dictSet m k'' (holdingOf ns it)) k = dictGet m k := by
          rw [dictGet_dictSet, if_neg (fun he : k = k'' => hkk he.symm)]
        simp [hget]

theorem keys_fold_nodup (ns : Option String) (its : List XElem) (m : Snapshot)
    (hnd : (keys m).Nodup) :
    (keys (its.foldl (insertEntry ns) m)).Nodup := by
  induction its generalizing m with
  | nil => exact hnd
  | cons it t ih =>
    rw [List.foldl_cons]
    apply ih
    unfold insertEntry
    rcases cusipOf ns it with _ | k''
    · exact hnd
    · exact nodup_keys_dictSet m k'' _ hnd

theorem keys_fold_ne_empty (ns : Option String) (its : List XElem)
    (m : Snapshot) (hm : ∀ k ∈ keys m, k ≠ "") :
    ∀ k ∈ keys (its.foldl (insertEntry ns) m), k ≠ "" := by
  induction its generalizing m with
  | nil => exact hm
  | cons it t ih =>
    rw [List.foldl_cons]
    apply ih
    intro k hk
    unfold insertEntry at hk
    rcases hc : cusipOf ns it with _ | k''
    · rw [hc] at hk
      exact hm k hk
    · rw [hc] at hk
      rw [keys_dictSet] at hk
      split_ifs at hk with hmem
      · exact hm k hk
      · rcases List.mem_append.mp hk with hk1 | hk2
        · exact hm k hk1
        · have : k = k'' := by simpa using hk2
          subst this
          exact cusipOf_ne_empty hc

/-! ### The string-level parse pipeline -/

def bomChar : Char := Char.ofNat 0xFEFF

/-- `content.replace('﻿', '')`: remove every byte-order mark. -/
def removeBOM (l : List Char) : List Char := l.filter (· ≠ bomChar)

/-- Index of the first occurrence of `pat` in a character list (Python
`str.find` when some). -/
def firstOcc (pat : List Char) : List Char → Option ℕ
  | [] => if pat.isEmpty then some 0 else none
  | c :: t =>
    if pat.isPrefixOf (c :: t) then some 0 else (firstOcc pat t).map (· + 1)

/-- Index of the last occurrence of `pat` in a character list. -/
def lastOcc (pat : List Char) : List Char → Option ℕ
  | [] => if pat.isEmpty then some 0 else none
  | c :: t =>
    match (lastOcc pat t).map (· + 1) with
    | some j => some j
    | none => if pat.isPrefixOf (c :: t) then some 0 else none

/-- Python `pat in s`. -/
def containsSub (pat l : List Char) : Bool := (firstOcc pat l).isSome

/-- Python `str.lower()`, character-wise. -/
def lowerChars (l : List Char) : List Char := l.map Char.toLower

def itfStartPat : List Char := "<informationtable".toList

def itfEndPat : List Char := "</informationtable>".toList

def stylesheetPat : List Char := "<?xml-stylesheet".toList

def htmlPat : List Char := "<html".toList

def xmlDeclPat : List Char := "<?xml".toList

def gtChar : Char := '>'

/-- One attempt of the search for
`<informationTable[^>]*>.*</informationTable>` (DOTALL, IGNORECASE) at
position `i` of the lowered content: the literal head must match at
`i`, `[^>]*>` then ends at the first `>` from `i + 17`, and the greedy
`.*` runs to the last occurrence of the closing literal. Returns the
exclusive end position of the match. -/
def itfMatchAt (L : List Char) (i : ℕ) : Option ℕ :=
  if itfStartPat.isPrefixOf (L.drop i) then
    match firstOcc [gtChar] (L.drop (i + 17)) with
    | some dj =>
      match lastOcc itfEndPat (L.drop (i + 17 + dj + 1)) with
      | some de => some (i + 17 + dj + 1 + de + 19)
      | none => none
    | none => none
  else none

/-- `re.search` semantics: the leftmost position with a match. -/
def itfSearchFrom (L : List Char) (i : ℕ) : Option (ℕ × ℕ) :=
  if _h : i ≤ L.length then
    match itfMatchAt L i with
    | some e => some (i, e)
    | none => itfSearchFrom L (i + 1)
  else none
termination_by L.length + 1 - i

/-- The extraction of the innermost holdings fragment: the matched span
of the original (unlowered) content, if any. -/
def extractITF (s : List Char) : Option (List Char) :=
  match itfSearchFrom (lowerChars s) 0 with
  | some (i, e) => some ((s.drop i).take (e - i))
  | none => none

/-- The initial cleanup (`content.strip()` then BOM removal). -/
def cleaned (content : List Char) : List Char :=
  removeBOM (pyStripChars content)

/-- The content cleanup preceding the strict parse: strip, remove BOMs,
and when the content looks wrapped (an `<html` or stylesheet marker),
extract the holdings fragment or fall back to slicing from a later XML
declaration. -/
def preprocess (content : List Char) : List Char :=
  if containsSub htmlPat (lowerChars (cleaned content)) ||
      containsSub stylesheetPat (cleaned content) then
    match extractITF (cleaned content) with
    | some frag => frag
    | none =>
      match firstOcc xmlDeclPat (cleaned content) with
      | some i => if 0 < i then (cleaned content).drop i else cleaned content
      | none => cleaned content
  else cleaned content

/-- The recovery pass: drop every line containing a stylesheet
directive or an `<html` marker, rejoining with newlines. -/
def dropBadLines (content : List Char) : List Char :=
  List.intercalate ['\n']
    ((content.splitOn '\n').filter
      (fun line => !(containsSub stylesheetPat line) &&
        !(containsSub htmlPat (lowerChars line))))

/-- `parse_13f_xml(content)`: preprocess, strict parse, one recovery
retry, and `ValueError("Cannot parse XML: ...")` when both parses fail.
The structural parser `ET.fromstring` is an external collaborator and
is passed in as a function. -/
def parse_13f_xml (fromstring : List Char → Except String XElem)
    (content : List Char) : Except String Snapshot :=
  match fromstring (preprocess content) with
  | .ok root => .ok (extractPositions root)
  | .error _ =>
    match fromstring (dropBadLines (preprocess content)) with
    | .ok root => .ok (extractPositions root)
    | .error e2 => .error ("Cannot parse XML: " ++ e2)

/-! ### Claim C6: the extracted mapping -/

/-- C6: the snapshot built by the extraction loop has an entry for a
holding element iff that element's identifier is non-empty after
trimming (`cusipOf` is `some`); the entry stored under an identifier
comes from the last holding element with that identifier in document
order; and all keys are unique and non-empty. -/
theorem claim6_parser_mapping (root : XElem) :
    (∀ k, (∃ h, dictGet (extractPositions root) k = some h) ↔
      some k ∈ (parse_infoTables root).map (cusipOf (get_namespace root))) ∧
    (∀ k, dictGet (extractPositions root) k =
      (((parse_infoTables root).filter
        (fun it => cusipOf (get_namespace root) it == some k)).getLast?).map
          (holdingOf (get_namespace root))) ∧
    (keys (extractPositions root)).Nodup ∧
    (∀ k ∈ keys (extractPositions root), k ≠ "") := by
  have hb : ∀ k, dictGet (extractPositions root) k =
      (((parse_infoTables root).filter
        (fun it => cusipOf (get_namespace root) it == some k)).getLast?).map
          (holdingOf (get_namespace root)) := by
    intro k
    unfold extractPositions
    rw [dictGet_fold]
    rcases hl : ((parse_infoTables root).filter
        (fun it => cusipOf (get_namespace root) it == some k)).getLast?
        with _ | it
    · rfl
    · rfl
  refine ⟨?_, hb, ?_, ?_⟩
  · intro k
    constructor
    · rintro ⟨h, hh⟩
      rw [hb k] at hh
      rcases hl : ((parse_infoTables root).filter
          (fun it => cusipOf (get_namespace root) it == some k)).getLast?
          with _ | it
      · rw [hl] at hh
        cases hh
      · have hne : ((parse_infoTables root).filter
            (fun it => cusipOf (get_namespace root) it == some k)) ≠ [] := by
          intro he
          rw [he] at hl
          cases hl
        have hmem : it ∈ (parse_infoTables root).filter
            (fun it => cusipOf (get_namespace root) it == some k) := by
          rw [List.getLast?_eq_getLast _ hne] at hl
          have := List.getLast_mem hne
          rwa [Option.some_inj.mp hl] at this
        rcases List.mem_filter.mp hmem with ⟨hits, hp⟩
        exact List.mem_map.mpr ⟨it, hits, by simpa using hp⟩
    · intro hmem
      rcases List.mem_map.mp hmem with ⟨it, hits, hc⟩
      have hp : it ∈ (parse_infoTables root).filter
          (fun it => cusipOf (get_namespace root) it == some k) :=
        List.mem_filter.mpr ⟨hits, by simp [hc]⟩
      have hne : ((parse_infoTables root).filter
          (fun it => cusipOf (get_namespace root) it == some k)) ≠ [] :=
        List.ne_nil_of_mem hp
      rw [hb k, List.getLast?_eq_getLast _ hne]
      exact ⟨_, rfl⟩
  · exact keys_fold_nodup _ _ [] (by simp [keys])
  · exact keys_fold_ne_empty _ _ [] (by simp [keys])

/-! ### Claim C8: non-negativity of parsed numbers (corrected) -/

theorem itfSearchFrom_eq (L : List Char) :
    ∀ (n i k e : ℕ), k - i ≤ n → i ≤ k → k ≤ L.length →
      (∀ j, i ≤ j → j < k → itfMatchAt L j = none) →
      itfMatchAt L k = some e →
      itfSearchFrom L i = some (k, e) := by
  intro n
  induction n with
  | zero =>
    intro i k e hn hik hkL hnone hsome
    have hik2 : i = k := by omega
    subst hik2
    rw [itfSearchFrom]
    simp [hkL, hsome]
  | succ n ih =>
    intro i k e hn hik hkL hnone hsome
    by_cases hik2 : i = k
    · subst hik2
      rw [itfSearchFrom]
      simp [hkL, hsome]
    · have hlt : i < k := lt_of_le_of_ne hik hik2
      rw [itfSearchFrom]
      have hiL : i ≤ L.length := by omega
      have hni : itfMatchAt L i = none := hnone i (le_refl i) hlt
      simp only [hiL, dif_pos, hni]
      exact ih (i + 1) k e (by omega) hlt hkL
        (fun j hj1 hj2 => hnone j (by omega) hj2) hsome

theorem itfMatchAt_some (L : List Char) (p g d f : ℕ)
    (hB : itfStartPat.isPrefixOf (L.drop p) = true)
    (hC : firstOcc [gtChar] (L.drop (p + 17)) = some g)
    (hD : lastOcc itfEndPat (L.drop (p + 17 + g + 1)) = some d)
    (hE : p + 17 + g + 1 + d + 19 = p + f) :
    itfMatchAt L p = some (p + f) := by
  simp only [itfMatchAt, hB, if_true, hC, hD]
  simp only [Option.some_inj]
  omega

theorem extractITF_of_wrapped (pre frag post : List Char) (g d : ℕ)
    (hA : ∀ i < pre.length,
      itfStartPat.isPrefixOf ((lowerChars (pre ++ frag ++ post)).drop i) = false)
    (hB : itfStartPat.isPrefixOf
      ((lowerChars (pre ++ frag ++ post)).drop pre.length) = true)
    (hC : firstOcc [gtChar]
      ((lowerChars (pre ++ frag ++ post)).drop (pre.length + 17)) = some g)
    (hD : lastOcc itfEndPat
      ((lowerChars (pre ++ frag ++ post)).drop (pre.length + 17 + g + 1)) =
        some d)
    (hE : pre.length + 17 + g + 1 + d + 19 = pre.length + frag.length) :
    extractITF (pre ++ frag ++ post) = some frag := by
  unfold extractITF
  have hL : (lowerChars (pre ++ frag ++ post)).length =
      pre.length + frag.length + post.length := by
    simp [lowerChars]
    omega
  have hnone : ∀ j, 0 ≤ j → j < pre.length →
      itfMatchAt (lowerChars (pre ++ frag ++ post)) j = none := by
    intro j _ hj
    unfold itfMatchAt
    rw [hA j hj]
    simp
  have hmatch := itfMatchAt_some (lowerChars (pre ++ frag ++ post))
    pre.length g d frag.length hB hC hD hE
  have hsearch := itfSearchFrom_eq (lowerChars (pre ++ frag ++ post))
    pre.length 0 pre.length (pre.length + frag.length)
    (by omega) (by omega) (by omega) hnone hmatch
  simp only [hsearch]
  have hdrop : (pre ++ frag ++ post).drop pre.length = frag ++ post := by
    rw [List.append_assoc, List.drop_left]
  have hlen : pre.length + frag.length - pre.length = frag.length := by omega
  rw [hdrop, hlen, List.take_left]

theorem cleaned_eq_self (content : List Char)
    (hstrip : pyStripChars content = content)
    (hbom : bomChar ∉ content) : cleaned content = content := by
  unfold cleaned removeBOM
  rw [hstrip]
  apply List.filter_eq_self.mpr
  intro a ha
  simp only [decide_eq_true_eq]
  intro he
  exact hbom (he ▸ ha)

theorem preprocess_of_wrapped (content frag : List Char)
    (hclean : cleaned content = content)
    (hdet : containsSub stylesheetPat content = true)
    (hext : extractITF content = some frag) :
    preprocess content = frag := by
  unfold preprocess
  rw [hclean, hdet, Bool.or_true, if_pos rfl]
  simp only [hext]

theorem preprocess_of_plain (content : List Char)
    (hclean : cleaned content = content)
    (hdet1 : containsSub htmlPat (lowerChars content) = false)
    (hdet2 : containsSub stylesheetPat content = false) :
    preprocess content = content := by
  unfold preprocess
  rw [hclean, hdet1, hdet2]
  simp

/-- C7: a document with an embedded stylesheet directive wrapping a
valid inner holdings fragment parses successfully and yields the same
snapshot as parsing the unwrapped fragment alone; and
`parse_13f_xml` fails exactly when the strict parse of the preprocessed
content fails and the strict parse of the line-filtered recovery
content also fails, in which case the error is `Cannot parse XML:`
carrying the second parse error — there is no other failure route. -/
theorem claim7_recovery
    (fromstring : List Char → Except String XElem) (root : XElem)
    (pre frag post : List Char) (g d : ℕ)
    (hbom : bomChar ∉ pre ++ frag ++ post)
    (hstrip : pyStripChars (pre ++ frag ++ post) = pre ++ frag ++ post)
    (hdet : containsSub stylesheetPat (pre ++ frag ++ post) = true)
    (hA : ∀ i < pre.length,
      itfStartPat.isPrefixOf ((lowerChars (pre ++ frag ++ post)).drop i) = false)
    (hB : itfStartPat.isPrefixOf
      ((lowerChars (pre ++ frag ++ post)).drop pre.length) = true)
    (hC : firstOcc [gtChar]
      ((lowerChars (pre ++ frag ++ post)).drop (pre.length + 17)) = some g)
    (hD : lastOcc itfEndPat
      ((lowerChars (pre ++ frag ++ post)).drop (pre.length + 17 + g + 1)) =
        some d)
    (hE : pre.length + 17 + g + 1 + d + 19 = pre.length + frag.length)
    (hfragstrip : pyStripChars frag = frag)
    (hfragdet1 : containsSub htmlPat (lowerChars frag) = false)
    (hfragdet2 : containsSub stylesheetPat frag = false)
    (hparse : fromstring frag = .ok root) :
    (parse_13f_xml fromstring (pre ++ frag ++ post) =
        .ok (extractPositions root) ∧
      parse_13f_xml fromstring frag = .ok (extractPositions root)) ∧
    (∀ c e1 e2, fromstring (preprocess c) = .error e1 →
      fromstring (dropBadLines (preprocess c)) = .error e2 →
      parse_13f_xml fromstring c = .error ("Cannot parse XML: " ++ e2)) ∧
    (∀ c err, parse_13f_xml fromstring c = .error err →
      ∃ e1 e2, fromstring (preprocess c) = .error e1 ∧
        fromstring (dropBadLines (preprocess c)) = .error e2 ∧
        err = "Cannot parse XML: " ++ e2) := by
  have hfragbom : bomChar ∉ frag := by
    intro hmem
    exact hbom (by simp [hmem])
  have hclean : cleaned (pre ++ frag ++ post) = pre ++ frag ++ post :=
    cleaned_eq_self _ hstrip hbom
  have hfragclean : cleaned frag = frag :=
    cleaned_eq_self _ hfragstrip hfragbom
  have hext : extractITF (pre ++ frag ++ post) = some frag :=
    extractITF_of_wrapped pre frag post g d hA hB hC hD hE
  have hpp : preprocess (pre ++ frag ++ post) = frag :=
    preprocess_of_wrapped _ _ hclean hdet hext
  have hppf : preprocess frag = frag :=
    preprocess_of_plain _ hfragclean hfragdet1 hfragdet2
  refine ⟨⟨?_, ?_⟩, ?_, ?_⟩
  · unfold parse_13f_xml
    simp only [hpp, hparse]
  · unfold parse_13f_xml
    simp only [hppf, hparse]
  · intro c e1 e2 h1 h2
    unfold parse_13f_xml
    simp only [h1, h2]
  · intro c err h
    unfold parse_13f_xml at h
    rcases hf1 : fromstring (preprocess c) with e1 | r
    · rw [hf1] at h
      rcases hf2 : fromstring (dropBadLines (preprocess c)) with e2 | r2
      · rw [hf2] at h
        simp only [Except.error.injEq] at h
        exact ⟨e1, e2, rfl, rfl, h.symm⟩
      · rw [hf2] at h
        cases h
    · rw [hf1] at h
      cases h

def w7pre : List Char := "<?xml-stylesheet type=x?>\n".toList

def w7frag : List Char := "<informationTable></informationTable>".toList

def w7root : XElem := .mk "informationTable" none []

/-- Witness for C7 at a concrete wrapped document. -/
theorem claim7_witness :
    (bomChar ∉ w7pre ++ w7frag ++ ([] : List Char)) ∧
    pyStripChars (w7pre ++ w7frag ++ []) = w7pre ++ w7frag ++ [] ∧
    containsSub stylesheetPat (w7pre ++ w7frag ++ []) = true ∧
    (∀ i < w7pre.length, itfStartPat.isPrefixOf
      ((lowerChars (w7pre ++ w7frag ++ [])).drop i) = false) ∧
    itfStartPat.isPrefixOf
      ((lowerChars (w7pre ++ w7frag ++ [])).drop w7pre.length) = true ∧
    firstOcc [gtChar]
      ((lowerChars (w7pre ++ w7frag ++ [])).drop (w7pre.length + 17)) = some 0 ∧
    lastOcc itfEndPat
      ((lowerChars (w7pre ++ w7frag ++ [])).drop (w7pre.length + 17 + 0 + 1)) =
        some 0 ∧
    w7pre.length + 17 + 0 + 1 + 0 + 19 = w7pre.length + w7frag.length ∧
    pyStripChars w7frag = w7frag ∧
    containsSub htmlPat (lowerChars w7frag) = false ∧
    containsSub stylesheetPat w7frag = false ∧
    (fun _ : List Char => (Except.ok w7root : Except String XElem)) w7frag =
      .ok w7root ∧
    ((parse_13f_xml (fun _ => Except.ok w7root) (w7pre ++ w7frag ++ []) =
        .ok (extractPositions w7root) ∧
      parse_13f_xml (fun _ => Except.ok w7root) w7frag =
        .ok (extractPositions w7root)) ∧
    (∀ c e1 e2,
      (fun _ : List Char => (Except.ok w7root : Except String XElem))
        (preprocess c) = .error e1 →
      (fun _ : List Char => (Except.ok w7root : Except String XElem))
        (dropBadLines (preprocess c)) = .error e2 →
      parse_13f_xml (fun _ => Except.ok w7root) c =
        .error ("Cannot parse XML: " ++ e2)) ∧
    (∀ c err, parse_13f_xml (fun _ => Except.ok w7root) c = .error err →
      ∃ e1 e2,
        (fun _ : List Char => (Except.ok w7root : Except String XElem))
          (preprocess c) = .error e1 ∧
        (fun _ : List Char => (Except.ok w7root : Except String XElem))
          (dropBadLines (preprocess c)) = .error e2 ∧
        err = "Cannot parse XML: " ++ e2)) :=
  ⟨by decide, by decide, by decide, by decide, by decide, by decide, by decide,
    by decide, by decide, by decide, by decide, rfl,
    claim7_recovery (fun _ => Except.ok w7root) w7root w7pre w7frag [] 0 0
      (by decide) (by decide) (by decide) (by decide) (by decide) (by decide)
      (by decide) (by decide) (by decide) (by decide) (by decide) rfl⟩

/-! ### Claim C10: documents with no holdings -/

/-- C10: when the (preprocessed) document parses successfully and
contains no holding-entry elements, `parse_13f_xml` succeeds with the
empty snapshot — an absence of holdings is not a malformed document. -/
theorem claim10_empty_holdings
    (fromstring : List Char → Except String XElem)
    (content : List Char) (root : XElem)
    (hok : fromstring (preprocess content) = .ok root)
    (hempty : parse_infoTables root = []) :
    parse_13f_xml fromstring content = .ok [] := by
  unfold parse_13f_xml
  simp only [hok]
  unfold extractPositions
  rw [hempty]
  rfl

def w10root : XElem := .mk "informationTable" none [ .mk "other" (some "x") [] ]

/-- Witness for C10: a constant parser returning a holdings-free root
makes `parse_13f_xml` return the empty snapshot. -/
theorem claim10_witness :
    (fun _ : List Char => (Except.ok w10root : Except String XElem))
        (preprocess []) = Except.ok w10root ∧
    parse_infoTables w10root = [] ∧
    parse_13f_xml (fun _ => Except.ok w10root) [] = Except.ok [] :=
  ⟨rfl, rfl, claim10_empty_holdings (fun _ => Except.ok w10root) [] w10root rfl rfl⟩

/-! ### Claim C9: the filing locator

The submissions index (`filings.recent`) is a record of parallel
arrays; the network lookup and the document download are external
collaborators and enter as parameters (`none` models a missing record
or a failed fetch). -/

/-- `submissions['filings']['recent']`: parallel arrays of filing
attributes in the order the source provides (reverse-chronological). -/
structure RecentFilings where
  form : List String
  accessionNumber : List String
  filingDate : List String
  reportDate : List String

/-- One selected filing's metadata. -/
structure FilingMeta where
  accessionNumber : String
  filingDate : String
  reportDate : String
deriving DecidableEq

/-- The metadata dictionary returned by `get_fund_filings`. -/
structure FundMetadata where
  current_date : String
  prior_date : String
  current_report_date : String
  prior_report_date : String
deriving DecidableEq

/-- The scan loop of `get_latest_13f_filings`: walk the index upward,
collect entries whose form tag is `13F-HR`, and break once `count`
entries are collected (checked after each append). -/
def filingsLoopAux (fl : RecentFilings) (count : ℕ) (i : ℕ)
    (acc : List FilingMeta) : List FilingMeta :=
  if h : i < fl.form.length then
    if fl.form.get ⟨i, h⟩ = "13F-HR" then
      if count ≤ (acc ++ [(⟨fl.accessionNumber.getD i "",
          fl.filingDate.getD i "", fl.reportDate.getD i ""⟩ :
            FilingMeta)]).length then
        acc ++ [(⟨fl.accessionNumber.getD i "",
          fl.filingDate.getD i "", fl.reportDate.getD i ""⟩ : FilingMeta)]
      else
        filingsLoopAux fl count (i + 1)
          (acc ++ [(⟨fl.accessionNumber.getD i "",
            fl.filingDate.getD i "", fl.reportDate.getD i ""⟩ : FilingMeta)])
    else filingsLoopAux fl count (i + 1) acc
  else acc
termination_by fl.form.length - i

/-- `get_latest_13f_filings(cik, count)`: empty when the index has no
record for the identifier, else the scan loop from index 0. -/
def get_latest_13f_filings (submissions : Option RecentFilings)
    (count : ℕ) : List FilingMeta :=
  match submissions with
  | none => []
  | some fl => filingsLoopAux fl count 0 []

/-- `get_fund_filings(cik)`: select the two most recent `13F-HR`
filings, download both holdings documents, and return the contents with
the filing metadata; `none` when fewer than two filings exist or a
download fails (or returns empty text). -/
def get_fund_filings (download : String → Option String)
    (submissions : Option RecentFilings) :
    Option (String × String × FundMetadata) :=
  match get_latest_13f_filings submissions 2 with
  | f0 :: f1 :: _ =>
    match download f0.accessionNumber, download f1.accessionNumber with
    | some cx, some px =>
      if cx = "" ∨ px = "" then none
      else some (cx, px,
        (⟨f0.filingDate, f1.filingDate, f0.reportDate, f1.reportDate⟩ :
          FundMetadata))
    | _, _ => none
  | _ => none

/-- The index records as (form, accession, filingDate, reportDate)
tuples, in source order. -/
def zipRecs (fl : RecentFilings) : List (String × String × String × String) :=
  fl.form.zip (fl.accessionNumber.zip (fl.filingDate.zip fl.reportDate))

/-- Modelled from the claim text: the entries whose filing-type tag
equals the quarterly-holdings form type, in the order the source
provides. -/
def matching13F (fl : RecentFilings) : List FilingMeta :=
  ((zipRecs fl).filter (fun p => p.1 == "13F-HR")).map
    (fun p => ⟨p.2.1, p.2.2.1, p.2.2.2⟩)

theorem zipRecs_length (fl : RecentFilings)
    (hlen1 : fl.accessionNumber.length = fl.form.length)
    (hlen2 : fl.filingDate.length = fl.form.length)
    (hlen3 : fl.reportDate.length = fl.form.length) :
    (zipRecs fl).length = fl.form.length := by
  simp [zipRecs, hlen1, hlen2, hlen3]

theorem filingsLoopAux_eq (fl : RecentFilings)
    (hlen1 : fl.accessionNumber.length = fl.form.length)
    (hlen2 : fl.filingDate.length = fl.form.length)
    (hlen3 : fl.reportDate.length = fl.form.length) (count : ℕ) :
    ∀ (n i : ℕ) (acc : List FilingMeta), fl.form.length - i ≤ n →
      acc.length < count →
      filingsLoopAux fl count i acc =
        acc ++ ((((zipRecs fl).drop i).filter (fun p => p.1 == "13F-HR")).map
          (fun p => (⟨p.2.1, p.2.2.1, p.2.2.2⟩ : FilingMeta))).take
            (count - acc.length) := by
  intro n
  induction n with
  | zero =>
    intro i acc hn hacc
    have hle : fl.form.length ≤ i := by omega
    have hz : (zipRecs fl).drop i = [] := by
      apply List.drop_eq_nil_of_le
      rw [zipRecs_length fl hlen1 hlen2 hlen3]
      exact hle
    rw [filingsLoopAux, dif_neg (by omega), hz]
    simp
  | succ n ih =>
    intro i acc hn hacc
    by_cases hi : i < fl.form.length
    · have hzlen : i < (zipRecs fl).length := by
        rw [zipRecs_length fl hlen1 hlen2 hlen3]
        exact hi
      have hdrop : (zipRecs fl).drop i =
          (zipRecs fl)[i] :: (zipRecs fl).drop (i + 1) :=
        List.drop_eq_getElem_cons hzlen
      have hgetz : (zipRecs fl)[i] =
          (fl.form[i], fl.accessionNumber[i], fl.filingDate[i],
            fl.reportDate[i]) := by
        simp [zipRecs, List.getElem_zip]
      have hgd1 : fl.accessionNumber.getD i "" = fl.accessionNumber[i] :=
        List.getD_eq_getElem _ _ (by omega)
      have hgd2 : fl.filingDate.getD i "" = fl.filingDate[i] :=
        List.getD_eq_getElem _ _ (by omega)
      have hgd3 : fl.reportDate.getD i "" = fl.reportDate[i] :=
        List.getD_eq_getElem _ _ (by omega)
      have hform : fl.form.get ⟨i, hi⟩ = fl.form[i] := rfl
      rw [filingsLoopAux, dif_pos hi]
      by_cases h13 : fl.form.get ⟨i, hi⟩ = "13F-HR"
      · rw [if_pos h13, hdrop, List.filter_cons]
        have hp : ((zipRecs fl)[i].1 == "13F-HR") = true := by
          rw [hgetz]
          simp only [← hform, h13]
          simp
        rw [if_pos hp, List.map_cons]
        have hmeta : (⟨(zipRecs fl)[i].2.1, (zipRecs fl)[i].2.2.1,
            (zipRecs fl)[i].2.2.2⟩ : FilingMeta) =
            ⟨fl.accessionNumber.getD i "", fl.filingDate.getD i "",
              fl.reportDate.getD i ""⟩ := by
          rw [hgetz, hgd1, hgd2, hgd3]
        rw [hmeta]
        have htake : ∀ (x : FilingMeta) (xs : List FilingMeta),
            (x :: xs).take (count - acc.length) =
              x :: xs.take (count - acc.length - 1) := by
          intro x xs
          rcases hcd : count - acc.length with _ | m
          · omega
          · rw [List.take_succ_cons]
            simp
        rw [htake]
        split
        · rename_i hbreak
          have hcount : count - acc.length - 1 = 0 := by
            simp at hbreak
            omega
          rw [hcount, List.take_zero]
        · rename_i hbreak
          rw [ih (i + 1) _ (by omega) (by simp at hbreak ⊢; omega)]
          have hlen' : (acc ++ [(⟨fl.accessionNumber.getD i "",
              fl.filingDate.getD i "", fl.reportDate.getD i ""⟩ :
                FilingMeta)]).length = acc.length + 1 := by
            simp
          rw [hlen']
          have harith : count - (acc.length + 1) = count - acc.length - 1 := by
            omega
          rw [harith, List.append_assoc]
          rfl
      · rw [if_neg h13]
        rw [ih (i + 1) acc (by omega) hacc, hdrop, List.filter_cons]
        have h13g : ¬ fl.form[i] = "13F-HR" := fun he => h13 (hform ▸ he)
        have hp : ((zipRecs fl)[i].1 == "13F-HR") = false := by
          rw [hgetz]
          simp [h13g]
        rw [if_neg (by simp [hp])]
    · have hle : fl.form.length ≤ i := by omega
      have hz : (zipRecs fl).drop i = [] := by
        apply List.drop_eq_nil_of_le
        rw [zipRecs_length fl hlen1 hlen2 hlen3]
        exact hle
      rw [filingsLoopAux, dif_neg (by omega), hz]
      simp

/-- C9: with a well-formed submissions index (parallel arrays of equal
length), the locator returns no result when the index has no record for
the identifier; `get_latest_13f_filings` selects exactly the first two
entries whose form tag is `13F-HR` in source order; the locator returns
no result when fewer than two such entries exist; and otherwise it
returns the two downloaded documents (current first, then prior) with
both filings' dates and report dates as metadata. -/
theorem claim9_filing_selection
    (download : String → Option String) (fl : RecentFilings)
    (hlen1 : fl.accessionNumber.length = fl.form.length)
    (hlen2 : fl.filingDate.length = fl.form.length)
    (hlen3 : fl.reportDate.length = fl.form.length) :
    get_fund_filings download none = none ∧
    get_latest_13f_filings (some fl) 2 = (matching13F fl).take 2 ∧
    ((matching13F fl).length < 2 →
      get_fund_filings download (some fl) = none) ∧
    (∀ m0 m1 rest x0 x1, matching13F fl = m0 :: m1 :: rest →
      download m0.accessionNumber = some x0 → x0 ≠ "" →
      download m1.accessionNumber = some x1 → x1 ≠ "" →
      get_fund_filings download (some fl) =
        some (x0, x1,
          ⟨m0.filingDate, m1.filingDate, m0.reportDate, m1.reportDate⟩)) := by
  have hsel : get_latest_13f_filings (some fl) 2 = (matching13F fl).take 2 := by
    show filingsLoopAux fl 2 0 [] = (matching13F fl).take 2
    rw [filingsLoopAux_eq fl hlen1 hlen2 hlen3 2 fl.form.length 0 []
      (by omega) (by simp)]
    simp [matching13F]
  refine ⟨rfl, hsel, ?_, ?_⟩
  · intro hlt
    unfold get_fund_filings
    rw [hsel]
    rcases hm : matching13F fl with _ | ⟨a, _ | ⟨b, t⟩⟩
    · rfl
    · rfl
    · rw [hm] at hlt
      simp only [List.length_cons] at hlt
      omega
  · intro m0 m1 rest x0 x1 hm hd0 hx0 hd1 hx1
    unfold get_fund_filings
    rw [hsel, hm]
    show (match download m0.accessionNumber, download m1.accessionNumber with
      | some cx, some px =>
        if cx = "" ∨ px = "" then none
        else some (cx, px,
          (⟨m0.filingDate, m1.filingDate, m0.reportDate, m1.reportDate⟩ :
            FundMetadata))
      | _, _ => none) = some (x0, x1,
        ⟨m0.filingDate, m1.filingDate, m0.reportDate, m1.reportDate⟩)
    simp only [hd0, hd1]
    rw [if_neg (by simp [hx0, hx1])]

def w9fl : RecentFilings :=
  { form := ["8-K", "13F-HR", "10-Q", "13F-HR", "13F-HR"]
    accessionNumber := ["a0", "a1", "a2", "a3", "a4"]
    filingDate := ["2025-01-01", "2025-02-14", "2025-03-01", "2024-11-14",
      "2024-08-14"]
    reportDate := ["2024-12-31", "2024-12-31", "2025-02-28", "2024-09-30",
      "2024-06-30"] }

def w9download : String → Option String :=
  fun a => if a = "a1" then some "xml-current"
    else if a = "a3" then some "xml-prior" else none

/-- Witness for C9 at a concrete submissions index. -/
theorem claim9_witness :
    w9fl.accessionNumber.length = w9fl.form.length ∧
    w9fl.filingDate.length = w9fl.form.length ∧
    w9fl.reportDate.length = w9fl.form.length ∧
    (get_fund_filings w9download none = none ∧
    get_latest_13f_filings (some w9fl) 2 = (matching13F w9fl).take 2 ∧
    ((matching13F w9fl).length < 2 →
      get_fund_filings w9download (some w9fl) = none) ∧
    (∀ m0 m1 rest x0 x1, matching13F w9fl = m0 :: m1 :: rest →
      w9download m0.accessionNumber = some x0 → x0 ≠ "" →
      w9download m1.accessionNumber = some x1 → x1 ≠ "" →
      get_fund_filings w9download (some w9fl) =
        some (x0, x1,
          ⟨m0.filingDate, m1.filingDate, m0.reportDate, m1.reportDate⟩))) :=
  ⟨by decide, by decide, by decide,
    claim9_filing_selection w9download w9fl (by decide) (by decide) (by decide)⟩

end ThirteenF
